import Mathlib

/-!
Shallow embedding of the spreadsheet formula engine in `src/script.js`.

The engine stores per-cell records (`cells`), evaluates formulas
(`evaluateFormula` → `evaluateExpression` → `evaluateFunction`/`sumRange`),
and propagates updates textually (`updateDependentCells`).  JavaScript
numbers are modelled as exact rationals extended with `NaN` and the two
infinities (`JNum`); all values reachable in the developed theorems are
small integers, where double-precision floats and exact rationals agree.
Every definition is structurally recursive (scanners and the arithmetic
parser take an explicit fuel argument, always called with enough fuel),
so the kernel can evaluate the engine on concrete inputs.
-/

namespace FSCO

/-! ### Character and string utilities (ASCII, as exercised by the engine) -/

def isUpperAlpha (c : Char) : Bool := 65 ≤ c.toNat && c.toNat ≤ 90

def isDigitCh (c : Char) : Bool := 48 ≤ c.toNat && c.toNat ≤ 57

def isIdentStart (c : Char) : Bool :=
  (65 ≤ c.toNat && c.toNat ≤ 90) || (97 ≤ c.toNat && c.toNat ≤ 122) ||
    c == '_' || c == '$'

def isIdentCh (c : Char) : Bool := isIdentStart c || isDigitCh c

/-- JS `String.prototype.toUpperCase` on the ASCII range. -/
def toUpperCh (c : Char) : Char :=
  if 97 ≤ c.toNat && c.toNat ≤ 122 then Char.ofNat (c.toNat - 32) else c

def toUpperJS (s : String) : String := String.mk (s.data.map toUpperCh)

/-- JS `String.prototype.trim` (whitespace at both ends). -/
def trimJS (s : String) : String :=
  String.mk (((s.data.dropWhile Char.isWhitespace).reverse.dropWhile
    Char.isWhitespace).reverse)

/-- Does `pat` occur as a prefix of `s`? -/
def listStartsWith : List Char → List Char → Bool
  | _, [] => true
  | [], _ :: _ => false
  | a :: as, b :: bs => a == b && listStartsWith as bs

/-- JS `String.prototype.includes`: `pat` occurs as a contiguous substring. -/
def listHasSub : List Char → List Char → Bool
  | [], pat => pat.isEmpty
  | a :: rest, pat => listStartsWith (a :: rest) pat || listHasSub rest pat

def strIncludes (s pat : String) : Bool := listHasSub s.data pat.data

/-- JS `String.prototype.startsWith` for string patterns. -/
def strStartsWith (s pat : String) : Bool := listStartsWith s.data pat.data

/-- JS `String.prototype.substring(n)` (drop the first `n` characters). -/
def strDrop (s : String) (n : Nat) : String := String.mk (s.data.drop n)

/-- JS `String.prototype.replace` with a string pattern: replace the first
occurrence only (replacement taken literally, as for the values produced by
the engine). -/
def replaceFirstList (pat repl : List Char) : List Char → List Char
  | [] => if pat.isEmpty then repl else []
  | a :: rest =>
    if listStartsWith (a :: rest) pat then repl ++ (a :: rest).drop pat.length
    else a :: replaceFirstList pat repl rest

def replaceFirst (s pat repl : String) : String :=
  String.mk (replaceFirstList pat.data repl.data s.data)

def digitsToNat (l : List Char) : Nat :=
  l.foldl (fun a c => a * 10 + (c.toNat - 48)) 0

/-! ### JavaScript numbers

Exact rationals (normalized by the smart constructors) extended with
`NaN` and signed infinity. -/

structure JRat where
  num : Int
  den : Nat
deriving DecidableEq

/-- Normalize a fraction with a positive denominator. -/
def JRat.norm (n : Int) (d : Nat) : JRat :=
  if d = 0 then ⟨0, 1⟩
  else
    let g := Nat.gcd n.natAbs d
    ⟨n / (g : Int), d / g⟩

/-- Normalize a fraction with a possibly negative denominator. -/
def JRat.norm2 (n d : Int) : JRat :=
  if d < 0 then JRat.norm (-n) (-d).toNat else JRat.norm n d.toNat

def JRat.ofInt (n : Int) : JRat := ⟨n, 1⟩

def JRat.add (a b : JRat) : JRat :=
  JRat.norm (a.num * (b.den : Int) + b.num * (a.den : Int)) (a.den * b.den)

def JRat.neg (a : JRat) : JRat := ⟨-a.num, a.den⟩

def JRat.sub (a b : JRat) : JRat := JRat.add a (JRat.neg b)

def JRat.mul (a b : JRat) : JRat := JRat.norm (a.num * b.num) (a.den * b.den)

def JRat.div (a b : JRat) : JRat :=
  JRat.norm2 (a.num * (b.den : Int)) ((a.den : Int) * b.num)

/-- Decimal digit expansion of `rem/den`, up to `fuel` digits. -/
def fracDigits : Nat → Nat → Nat → List Char
  | 0, _, _ => []
  | _, 0, _ => []
  | fuel + 1, rem, den =>
    let r := rem * 10
    Char.ofNat (48 + r / den) :: fracDigits fuel (r % den) den

/-- JS number-to-string for the rationals reachable here: integers print
without a decimal point, terminating decimals print exactly (double
rounding never matters for the small values the engine produces in the
developed scenarios). -/
def JRat.toStr (a : JRat) : String :=
  let sign := if a.num < 0 then "-" else ""
  let n := a.num.natAbs
  let intPart := n / a.den
  let rem := n % a.den
  if rem = 0 then sign ++ toString intPart
  else sign ++ toString intPart ++ "." ++ String.mk (fracDigits 20 rem a.den)

inductive JNum where
  | nan
  | inf (pos : Bool)
  | rat (q : JRat)
deriving DecidableEq

def jsIsNaN : JNum → Bool
  | JNum.nan => true
  | _ => false

def jrPos (q : JRat) : Bool := 0 < q.num

def jsAdd : JNum → JNum → JNum
  | JNum.nan, _ => JNum.nan
  | _, JNum.nan => JNum.nan
  | JNum.inf p, JNum.inf q => if p == q then JNum.inf p else JNum.nan
  | JNum.inf p, JNum.rat _ => JNum.inf p
  | JNum.rat _, JNum.inf q => JNum.inf q
  | JNum.rat a, JNum.rat b => JNum.rat (JRat.add a b)

def jsNeg : JNum → JNum
  | JNum.nan => JNum.nan
  | JNum.inf p => JNum.inf (!p)
  | JNum.rat a => JNum.rat (JRat.neg a)

def jsSub (a b : JNum) : JNum := jsAdd a (jsNeg b)

def jsMul : JNum → JNum → JNum
  | JNum.nan, _ => JNum.nan
  | _, JNum.nan => JNum.nan
  | JNum.inf p, JNum.inf q => JNum.inf (p == q)
  | JNum.inf p, JNum.rat b => if b.num = 0 then JNum.nan else JNum.inf (p == jrPos b)
  | JNum.rat a, JNum.inf q => if a.num = 0 then JNum.nan else JNum.inf (q == jrPos a)
  | JNum.rat a, JNum.rat b => JNum.rat (JRat.mul a b)

def jsDiv : JNum → JNum → JNum
  | JNum.nan, _ => JNum.nan
  | _, JNum.nan => JNum.nan
  | JNum.inf _, JNum.inf _ => JNum.nan
  | JNum.inf p, JNum.rat b => JNum.inf (p == (0 ≤ b.num))
  | JNum.rat _, JNum.inf _ => JNum.rat (JRat.ofInt 0)
  | JNum.rat a, JNum.rat b =>
    if b.num = 0 then (if a.num = 0 then JNum.nan else JNum.inf (jrPos a))
    else JNum.rat (JRat.div a b)

def jnumToString : JNum → String
  | JNum.nan => "NaN"
  | JNum.inf true => "Infinity"
  | JNum.inf false => "-Infinity"
  | JNum.rat a => JRat.toStr a

/-! ### Numeric literal scanning

`scanNumber` scans a JS numeric literal prefix (digits, optional fraction,
optional exponent).  `strict = true` follows the lexer of `eval` (an `e`
not followed by digits is a syntax error); `strict = false` follows
`parseFloat` (longest valid prefix wins, the dangling `e` is left over). -/

def scanNumber (strict : Bool) (l : List Char) : Option (JRat × List Char) :=
  let intD := l.takeWhile isDigitCh
  let r1 := l.dropWhile isDigitCh
  let (fracD, r2) :=
    match r1 with
    | '.' :: t => (t.takeWhile isDigitCh, t.dropWhile isDigitCh)
    | _ => ([], r1)
  if intD.isEmpty && fracD.isEmpty then none
  else
    let mant : JRat := JRat.norm ((digitsToNat (intD ++ fracD) : Nat) : Int)
      ((10 : Nat) ^ fracD.length)
    match r2 with
    | c :: t =>
      if c == 'e' || c == 'E' then
        let (neg, t2) :=
          match t with
          | '+' :: u => (false, u)
          | '-' :: u => (true, u)
          | _ => (false, t)
        let expD := t2.takeWhile isDigitCh
        if expD.isEmpty then
          if strict then none else some (mant, r2)
        else
          let e := digitsToNat expD
          let v := if neg then JRat.norm mant.num (mant.den * 10 ^ e)
                   else JRat.norm (mant.num * ((10 : Nat) ^ e : Nat)) mant.den
          some (v, t2.dropWhile isDigitCh)
      else some (mant, r2)
    | [] => some (mant, [])

/-- JS `parseFloat` applied to a string: leading whitespace, optional sign,
`Infinity` or a numeric-literal prefix; anything else gives `NaN`. -/
def parseFloatJS (sv : String) : JNum :=
  let l := sv.data.dropWhile Char.isWhitespace
  let (neg, l2) :=
    match l with
    | '-' :: t => (true, t)
    | '+' :: t => (false, t)
    | _ => (false, l)
  if listStartsWith l2 "Infinity".data then JNum.inf (!neg)
  else
    match scanNumber false l2 with
    | some (q, _) => JNum.rat (if neg then JRat.neg q else q)
    | none => JNum.nan

/-! ### The arithmetic fragment of `eval`

The substituted expression strings are evaluated by JS `eval`.  The
fragment reachable from this engine (per the source's own documentation:
`+ - * /` on numeric literals, no parentheses) is modelled by a tokenizer
and a two-level precedence parser.  The identifiers `undefined`, `NaN`
and `Infinity` evaluate to their global values; `undefined` is folded
into `NaN` because every numeric context reached here (the four operators
and the final `isNaN` test) treats them identically.  Any other leftover
identifier is a `ReferenceError`, and any other character or malformed
phrase is a `SyntaxError`; both are modelled as `none` (caught by the
`try`/`catch` in `evaluateExpression`). -/

inductive Tok where
  | num (q : JRat)
  | ident (s : String)
  | op (c : Char)
deriving DecidableEq

def tokenizeF : Nat → List Char → Option (List Tok)
  | _, [] => some []
  | 0, _ :: _ => none
  | f + 1, c :: rest =>
    if c.isWhitespace then tokenizeF f rest
    else if isDigitCh c ||
        (c == '.' && (match rest with | d :: _ => isDigitCh d | [] => false)) then
      match scanNumber true (c :: rest) with
      | some (q, r) => (tokenizeF f r).map (Tok.num q :: ·)
      | none => none
    else if isIdentStart c then
      (tokenizeF f ((c :: rest).dropWhile isIdentCh)).map
        (Tok.ident (String.mk ((c :: rest).takeWhile isIdentCh)) :: ·)
    else if c == '+' || c == '-' || c == '*' || c == '/' then
      (tokenizeF f rest).map (Tok.op c :: ·)
    else none

def tokenize (l : List Char) : Option (List Tok) := tokenizeF (l.length + 1) l

def evalIdent (s : String) : Option JNum :=
  if s == "undefined" then some JNum.nan
  else if s == "NaN" then some JNum.nan
  else if s == "Infinity" then some (JNum.inf true)
  else none

def parseFactorF : Nat → List Tok → Option (JNum × List Tok)
  | 0, _ => none
  | f + 1, ts =>
    match ts with
    | Tok.op c :: rest =>
      if c == '+' then parseFactorF f rest
      else if c == '-' then (parseFactorF f rest).map (fun vr => (jsNeg vr.1, vr.2))
      else none
    | Tok.num q :: rest => some (JNum.rat q, rest)
    | Tok.ident s :: rest => (evalIdent s).map (fun v => (v, rest))
    | [] => none

def parseTermLoopF : Nat → JNum → List Tok → Option (JNum × List Tok)
  | 0, _, _ => none
  | f + 1, acc, ts =>
    match ts with
    | Tok.op c :: rest =>
      if c == '*' || c == '/' then
        match parseFactorF (f + 1) rest with
        | some (v, r) =>
          parseTermLoopF f (if c == '*' then jsMul acc v else jsDiv acc v) r
        | none => none
      else some (acc, ts)
    | _ => some (acc, ts)

def parseTermF : Nat → List Tok → Option (JNum × List Tok)
  | 0, _ => none
  | f + 1, ts =>
    match parseFactorF (f + 1) ts with
    | some (v, r) => parseTermLoopF f v r
    | none => none

def parseExprLoopF : Nat → JNum → List Tok → Option (JNum × List Tok)
  | 0, _, _ => none
  | f + 1, acc, ts =>
    match ts with
    | Tok.op c :: rest =>
      if c == '+' || c == '-' then
        match parseTermF (f + 1) rest with
        | some (v, r) =>
          parseExprLoopF f (if c == '+' then jsAdd acc v else jsSub acc v) r
        | none => none
      else some (acc, ts)
    | _ => some (acc, ts)

def parseExprF : Nat → List Tok → Option (JNum × List Tok)
  | 0, _ => none
  | f + 1, ts =>
    match parseTermF (f + 1) ts with
    | some (v, r) => parseExprLoopF f v r
    | none => none

/-- The result of `eval(expression)` in the arithmetic fragment: `none` for
a thrown `SyntaxError`/`ReferenceError`, otherwise the numeric value
(`eval` of an empty or all-whitespace string yields `undefined`, folded
into `NaN` as above). -/
def evalArith (e : String) : Option JNum :=
  match tokenize e.data with
  | none => none
  | some [] => some JNum.nan
  | some ts =>
    match parseExprF (2 * ts.length + 4) ts with
    | some (v, []) => some v
    | _ => none

/-! ### The cell store

`const cells = {}` maps cell ids to `{ formula, value }` records.  A JS
object with string keys (cell ids start with a letter, so they are not
array indices) preserves insertion order: an existing key keeps its
position on update, a new key is appended.  The store is an association
list with exactly that update discipline. -/

inductive JSVal where
  | undef
  | num (n : JNum)
  | str (s : String)
deriving DecidableEq

/-- One entry of `cells`: the stored formula text (`""` for a literal,
otherwise the full trimmed-and-uppercased input including the leading
`=`, see `evaluateFormula`) and the stored value. -/
structure CellRecord where
  formula : String
  value : JSVal
deriving DecidableEq

abbrev Store := List (String × CellRecord)

def storeGet : Store → String → Option CellRecord
  | [], _ => none
  | (k', v') :: rest, k => if k' == k then some v' else storeGet rest k

def storeSet : Store → String → CellRecord → Store
  | [], k, v => [(k, v)]
  | (k', v') :: rest, k, v =>
    if k' == k then (k', v) :: rest else (k', v') :: storeSet rest k v

/-- `Object.keys(cells)` in insertion order. -/
def storeKeys (s : Store) : List String := s.map (fun kv => kv.1)

/-- The coercion applied when a stored value is spliced into a string
(`String.prototype.replace` replacement, `parseFloat` argument):
JS `ToString`. -/
def valToString : JSVal → String
  | JSVal.undef => "undefined"
  | JSVal.num n => jnumToString n
  | JSVal.str s => s

/-- `(cells[cellId] || 0).value`: the record's value when the id is
present; for a missing id the fallback is the number `0`, whose `.value`
property is `undefined`. -/
def getDotValue (s : Store) (cellId : String) : JSVal :=
  match storeGet s cellId with
  | some rec => rec.value
  | none => JSVal.undef

/-! ### Cell address parsing (`parseCellId`) -/

/-- Leftmost match of a one-character-class regex (`/[A-Z]+/` or
`/\d+/`): the first maximal run of characters satisfying `p`. -/
def firstRun (p : Char → Bool) : List Char → Option (List Char)
  | [] => none
  | c :: rest => if p c then some ((c :: rest).takeWhile p) else firstRun p rest

/-- `parseCellId`: the first run of uppercase letters and `parseInt` of
the first run of digits.  `none` models the `TypeError` the JS throws
(`null[0]`) when either regex fails to match. -/
def parseCellId (cellId : String) : Option (String × Nat) :=
  match firstRun isUpperAlpha cellId.data, firstRun isDigitCh cellId.data with
  | some col, some row => some (String.mk col, digitsToNat row)
  | _, _ => none

/-! ### Regex scanners used by `evaluateExpression` and `evaluateFunction`

All three patterns are chains of required character runs followed by
required literal characters, so greedy maximal-munch matching agrees with
the backtracking JS regex engine, and the leftmost match is found by
trying each start position in order. -/

/-- A required nonempty run of characters satisfying `p`. -/
def expectRun (p : Char → Bool) (l : List Char) : Option (List Char × List Char) :=
  let run := l.takeWhile p
  if run.isEmpty then none else some (run, l.dropWhile p)

def expectChar (c : Char) : List Char → Option (List Char)
  | x :: rest => if x == c then some rest else none
  | [] => none

/-- Match of `/([A-Z]+)\([A-Z]+\d+:[A-Z]+\d+\)/` anchored at the start of
`l`; returns the matched characters. -/
def matchFunctionAt (l : List Char) : Option (List Char) := do
  let (nm, r1) ← expectRun isUpperAlpha l
  let r2 ← expectChar '(' r1
  let (c1, r3) ← expectRun isUpperAlpha r2
  let (d1, r4) ← expectRun isDigitCh r3
  let r5 ← expectChar ':' r4
  let (c2, r6) ← expectRun isUpperAlpha r5
  let (d2, r7) ← expectRun isDigitCh r6
  let _ ← expectChar ')' r7
  pure (nm ++ '(' :: (c1 ++ d1 ++ ':' :: (c2 ++ d2 ++ [')'])))

/-- Leftmost match of the function-call regex (`functionRegex.test` plus
`expression.match(functionRegex)[0]`). -/
def findFunctionMatch : List Char → Option (List Char)
  | [] => none
  | c :: rest =>
    match matchFunctionAt (c :: rest) with
    | some m => some m
    | none => findFunctionMatch rest

/-- Match of `/[A-Z]+\d+:[A-Z]+\d+/` anchored at the start of `l`. -/
def matchRangeAt (l : List Char) : Option (List Char) := do
  let (c1, r1) ← expectRun isUpperAlpha l
  let (d1, r2) ← expectRun isDigitCh r1
  let r3 ← expectChar ':' r2
  let (c2, r4) ← expectRun isUpperAlpha r3
  let (d2, _) ← expectRun isDigitCh r4
  pure (c1 ++ d1 ++ ':' :: (c2 ++ d2))

def findRangeMatch : List Char → Option (List Char)
  | [] => none
  | c :: rest =>
    match matchRangeAt (c :: rest) with
    | some m => some m
    | none => findRangeMatch rest

/-- All matches of `/[A-Z]+\d+/g` in order (the global regex advances one
position on failure and past the match on success). -/
def scanRefsF : Nat → List Char → List String
  | 0, _ => []
  | _, [] => []
  | f + 1, c :: rest =>
    if isUpperAlpha c then
      let letters := (c :: rest).takeWhile isUpperAlpha
      let r1 := (c :: rest).dropWhile isUpperAlpha
      let digits := r1.takeWhile isDigitCh
      if digits.isEmpty then scanRefsF f rest
      else String.mk (letters ++ digits) :: scanRefsF f (r1.dropWhile isDigitCh)
    else scanRefsF f rest

def scanRefs (l : List Char) : List String := scanRefsF (l.length + 1) l

/-- `range.split(":")` followed by taking elements `[0]` and `[1]`. -/
def splitColon (l : List Char) : List Char × List Char :=
  (l.takeWhile (fun c => !(c == ':')),
   ((l.dropWhile (fun c => !(c == ':'))).drop 1).takeWhile (fun c => !(c == ':')))

/-! ### The engine -/

/-- `SUPPORTED_FUNCTIONS = { SUM: sumRange }`. -/
def isSupportedFunction (name : String) : Bool := name == "SUM"

def natRangeIncl (a b : Nat) : List Nat := (List.range (b + 1 - a)).map (a + ·)

/-- `sumRange(startCol, startRow, endCol, endRow)`: nested loops over
`row = startRow..endRow` and `col = startCol.charCodeAt(0) ..
endCol.charCodeAt(0)`, accumulating
`sum += parseFloat((cells[id] || 0).value)` for
`id = String.fromCharCode(col) + row`.  Only the first character of each
column label feeds the loop bounds.  `charCodeAt(0)` of an empty string
is `NaN`, making the column loop empty and leaving the sum at `0`. -/
def sumRange (s : Store) (startCol : String) (startRow : Nat)
    (endCol : String) (endRow : Nat) : JNum :=
  let colCodes : List Nat :=
    match startCol.data, endCol.data with
    | sc :: _, ec :: _ => natRangeIncl sc.toNat ec.toNat
    | _, _ => []
  (natRangeIncl startRow endRow).foldl (fun acc row =>
    colCodes.foldl (fun acc2 col =>
      jsAdd acc2 (parseFloatJS
        (valToString (getDotValue s (String.mk [Char.ofNat col] ++ toString row)))))
      acc)
    (JNum.rat (JRat.ofInt 0))

/-- `evaluateFunction(functionExpression, functionName)`: extract the
first range match, split it on `:`, parse both cell ids, and dispatch
through `SUPPORTED_FUNCTIONS` (only `SUM`).  The `none` fallbacks are
unreachable for the arguments the engine passes (the caller matched a
well-formed call, so the range and both ids parse); the JS would throw
there. -/
def evaluateFunction (s : Store) (functionExpression : String)
    (functionName : String) : JSVal :=
  match findRangeMatch functionExpression.data with
  | none => JSVal.str ""
  | some range =>
    let (startCell, endCell) := splitColon range
    match parseCellId (String.mk startCell), parseCellId (String.mk endCell) with
    | some (startCol, startRow), some (endCol, endRow) =>
      if isSupportedFunction functionName then
        if functionName == "SUM" then
          JSVal.num (sumRange s startCol startRow endCol endRow)
        else JSVal.str ""
      else JSVal.str ""
    | _, _ => JSVal.str ""

/-- The `try { eval(expression) } catch`/`isNaN` tail of
`evaluateExpression`: a throw gives `"N/A"`, a `NaN` result gives `""`,
anything else is the numeric result. -/
def finishEval (expression : String) : JSVal :=
  match evalArith expression with
  | none => JSVal.str "N/A"
  | some r => if jsIsNaN r then JSVal.str "" else JSVal.num r

/-- `evaluateExpression(expression)` (the `col`/`row` parameters of the
JS function are never read).  If the function regex matches somewhere in
the expression, the name before the `(` of the first match (the
`.replace("=", "")` is a no-op: the match starts with letters) is looked
up in `SUPPORTED_FUNCTIONS`; unsupported names return `"N/A"`, supported
ones have the matched call replaced by the reducer's result.  Otherwise
every cell-reference match is replaced (first occurrence each) by the
stored value of the reconstructed id `refCol + refRow`.  The resulting
string goes to `eval`. -/
def evaluateExpression (s : Store) (expr0 : String) : JSVal :=
  let cellReferences := scanRefs expr0.data
  match findFunctionMatch expr0.data with
  | some fm =>
    let functionMatch := String.mk fm
    let functionName := String.mk (fm.takeWhile (fun c => !(c == '(')))
    if isSupportedFunction functionName then
      finishEval (replaceFirst expr0 functionMatch
        (valToString (evaluateFunction s functionMatch functionName)))
    else JSVal.str "N/A"
  | none =>
    finishEval (cellReferences.foldl (fun e ref =>
      let cellId :=
        match parseCellId ref with
        | some (col, row) => col ++ toString row
        | none => ref
      replaceFirst e ref (valToString (getDotValue s cellId))) expr0)

/-- One iteration of the `Object.keys(cells).forEach` body of
`updateDependentCells`: when the (current) record's formula contains the
updated id as a substring, re-evaluate `formula.substring(1)` against the
current store, overwrite the record's value, and notify the renderer
(`cellElement.innerText = evaluatedValue`). -/
def propagateStep (updatedCellId : String) (acc : Store × List (String × JSVal))
    (cellId : String) : Store × List (String × JSVal) :=
  match storeGet acc.1 cellId with
  | none => acc
  | some rec =>
    if strIncludes rec.formula updatedCellId then
      let evaluatedValue := evaluateExpression acc.1 (strDrop rec.formula 1)
      (storeSet acc.1 cellId ⟨rec.formula, evaluatedValue⟩,
       acc.2 ++ [(cellId, evaluatedValue)])
    else acc

/-- `updateDependentCells(updatedCellId)`: fold the step over the key
snapshot taken before the loop.  Returns the final store and the renderer
notifications in order. -/
def updateDependentCells (s : Store) (updatedCellId : String) :
    Store × List (String × JSVal) :=
  (storeKeys s).foldl (propagateStep updatedCellId) (s, [])

/-- `evaluateFormula` for an edit of `cellId` with raw text `rawText`:
`formula = rawText.trim().toUpperCase()`; a leading `=` commits
`{ formula, value: evaluateExpression(formula.substring(1)) }`, anything
else commits `{ formula: "", value: formula }`; then dependents are
updated.  Returns the final store and the renderer notifications. -/
def evaluateFormula (s : Store) (cellId : String) (rawText : String) :
    Store × List (String × JSVal) :=
  let formula := toUpperJS (trimJS rawText)
  if strStartsWith formula "=" then
    let expression := strDrop formula 1
    let evaluatedValue := evaluateExpression s expression
    updateDependentCells (storeSet s cellId ⟨formula, evaluatedValue⟩) cellId
  else
    updateDependentCells (storeSet s cellId ⟨"", JSVal.str formula⟩) cellId

/-! ### Column headers (`getColumnHeaders`) -/

/-- The inner `while (quotient >= 0)` loop of `getColumnHeaders`, which
prepends `String.fromCharCode(65 + quotient % 26)` and continues with
`quotient = floor(quotient / 26) - 1` while that stays nonnegative.
`fuel ≥ quotient + 1` always suffices since the quotient strictly
decreases. -/
def headerOfF : Nat → Nat → String
  | 0, _ => ""
  | f + 1, q =>
    if q < 26 then String.mk [Char.ofNat (65 + q % 26)]
    else headerOfF f (q / 26 - 1) ++ String.mk [Char.ofNat (65 + q % 26)]

def headerOf (q : Nat) : String := headerOfF (q + 1) q

/-- `getColumnHeaders(count)`: the outer loop pushes the header built
from `quotient = columnCount - 1` for `columnCount = 1..count`. -/
def getColumnHeaders (count : Nat) : List String :=
  (List.range count).map headerOf

/-- Modelled from the spec: the bijective base-26 label of the 1-based
column number `n` — repeatedly take `(n-1) mod 26` as the next
least-significant letter, then `n = floor((n-1)/26)`, stopping at `0`.
`fuel ≥ n` suffices. -/
def specColumnLabelF : Nat → Nat → String
  | 0, _ => ""
  | f + 1, n =>
    if n = 0 then ""
    else specColumnLabelF f ((n - 1) / 26) ++ String.mk [Char.ofNat (65 + (n - 1) % 26)]

def specColumnLabel (n : Nat) : String := specColumnLabelF n n

/-! ### Derived notions used to state the claims -/

/-- Does the record stored for `k` have a formula containing `u` as a
substring — the test `updateDependentCells` applies to each key. -/
def matchB (s : Store) (u k : String) : Bool :=
  match storeGet s k with
  | some rec => strIncludes rec.formula u
  | none => false

/-- The fully substituted string that `evaluateExpression` hands to
`eval`, or `none` when the unsupported-function branch returns `"N/A"`
before any evaluation. -/
def substitutedExpr (s : Store) (expr0 : String) : Option String :=
  let cellReferences := scanRefs expr0.data
  match findFunctionMatch expr0.data with
  | some fm =>
    let functionMatch := String.mk fm
    let functionName := String.mk (fm.takeWhile (fun c => !(c == '(')))
    if isSupportedFunction functionName then
      some (replaceFirst expr0 functionMatch
        (valToString (evaluateFunction s functionMatch functionName)))
    else none
  | none =>
    some (cellReferences.foldl (fun e ref =>
      let cellId :=
        match parseCellId ref with
        | some (col, row) => col ++ toString row
        | none => ref
      replaceFirst e ref (valToString (getDotValue s cellId))) expr0)

/-- The cell ids `sumRange` actually visits, in visiting order: the loop
bounds come from `charCodeAt(0)`, i.e. only the first character of each
column label. -/
def rangeCells (startCol : String) (startRow : Nat)
    (endCol : String) (endRow : Nat) : List String :=
  let colCodes : List Nat :=
    match startCol.data, endCol.data with
    | sc :: _, ec :: _ => natRangeIncl sc.toNat ec.toNat
    | _, _ => []
  (natRangeIncl startRow endRow).flatMap (fun row =>
    colCodes.map (fun col => String.mk [Char.ofNat col] ++ toString row))

/-! ### Store lemmas -/

theorem storeGet_storeSet_self (s : Store) (k : String) (v : CellRecord) :
    storeGet (storeSet s k v) k = some v := by
  induction s with
  | nil => simp [storeSet, storeGet]
  | cons kv rest ih =>
    obtain ⟨k', v'⟩ := kv
    by_cases h : k' = k
    · subst h
      simp [storeSet, storeGet]
    · simp [storeSet, storeGet, beq_iff_eq, h, ih]

theorem storeGet_storeSet_ne (s : Store) {k id : String} (v : CellRecord)
    (h : id ≠ k) : storeGet (storeSet s k v) id = storeGet s id := by
  have hki : ¬(k = id) := fun hh => h hh.symm
  induction s with
  | nil => simp [storeSet, storeGet, beq_iff_eq, hki]
  | cons kv rest ih =>
    obtain ⟨k', v'⟩ := kv
    by_cases hk : k' = k
    · subst hk
      simp [storeSet, storeGet, beq_iff_eq, hki]
    · by_cases hi : k' = id
      · subst hi
        simp [storeSet, storeGet, beq_iff_eq, hk]
      · simp [storeSet, storeGet, beq_iff_eq, hk, hi, ih]

theorem mem_storeKeys_of_get {s : Store} {id : String} {rec : CellRecord}
    (h : storeGet s id = some rec) : id ∈ storeKeys s := by
  induction s with
  | nil => simp [storeGet] at h
  | cons kv rest ih =>
    obtain ⟨k', v'⟩ := kv
    by_cases hk : k' = id
    · subst hk
      simp [storeKeys]
    · rw [storeGet, if_neg (by simpa [beq_iff_eq] using hk)] at h
      simpa [storeKeys] using Or.inr (ih h)

/-! ### Propagation lemmas

The `forEach` body only ever rewrites the record of the key it is
visiting, keeping its formula; hence formulas are invariant under
propagation, non-matching records are untouched, and the notification
list is exactly the matching keys in order. -/

theorem propagateStep_formula (u : String) (acc : Store × List (String × JSVal))
    (k id : String) :
    (storeGet (propagateStep u acc k).1 id).map (fun r => r.formula)
      = (storeGet acc.1 id).map (fun r => r.formula) := by
  unfold propagateStep
  cases hk : storeGet acc.1 k with
  | none => rfl
  | some rec =>
    cases hm : strIncludes rec.formula u with
    | false => simp [hm]
    | true =>
      by_cases hid : id = k
      · subst hid
        simp [hm, storeGet_storeSet_self, hk]
      · simp [hm, storeGet_storeSet_ne _ _ hid]

theorem propagateFold_formula (u : String) :
    ∀ (keys : List String) (acc : Store × List (String × JSVal)) (id : String),
    (storeGet ((keys.foldl (propagateStep u) acc).1) id).map (fun r => r.formula)
      = (storeGet acc.1 id).map (fun r => r.formula) := by
  intro keys
  induction keys with
  | nil => intro acc id; rfl
  | cons k keys ih =>
    intro acc id
    rw [List.foldl_cons, ih, propagateStep_formula]

theorem propagateStep_frame (u : String) {acc : Store × List (String × JSVal)}
    {id : String} {rec : CellRecord} (k : String)
    (hget : storeGet acc.1 id = some rec)
    (hm : strIncludes rec.formula u = false) :
    storeGet (propagateStep u acc k).1 id = some rec := by
  unfold propagateStep
  cases hk : storeGet acc.1 k with
  | none => exact hget
  | some recK =>
    cases hmk : strIncludes recK.formula u with
    | false => simpa [hmk] using hget
    | true =>
      by_cases hid : id = k
      · subst hid
        rw [hget] at hk
        cases hk
        rw [hmk] at hm
        cases hm
      · simpa [hmk] using (storeGet_storeSet_ne _ _ hid).trans hget

theorem propagateFold_frame (u : String) :
    ∀ (keys : List String) (acc : Store × List (String × JSVal))
      {id : String} {rec : CellRecord},
    storeGet acc.1 id = some rec → strIncludes rec.formula u = false →
    storeGet ((keys.foldl (propagateStep u) acc).1) id = some rec := by
  intro keys
  induction keys with
  | nil => intro acc id rec hget _; exact hget
  | cons k keys ih =>
    intro acc id rec hget hm
    rw [List.foldl_cons]
    exact ih _ (propagateStep_frame u k hget hm) hm

theorem propagateStep_untouched (u : String) (acc : Store × List (String × JSVal))
    {k id : String} (h : id ≠ k) :
    storeGet (propagateStep u acc k).1 id = storeGet acc.1 id := by
  unfold propagateStep
  cases hk : storeGet acc.1 k with
  | none => rfl
  | some recK =>
    cases hmk : strIncludes recK.formula u with
    | false => simp [hmk]
    | true => simp [hmk, storeGet_storeSet_ne _ _ h]

theorem propagateFold_untouched (u : String) :
    ∀ (keys : List String) (acc : Store × List (String × JSVal)) {id : String},
    id ∉ keys →
    storeGet ((keys.foldl (propagateStep u) acc).1) id = storeGet acc.1 id := by
  intro keys
  induction keys with
  | nil => intro acc id _; rfl
  | cons k keys ih =>
    intro acc id hmem
    rw [List.foldl_cons, ih _ (fun h => hmem (List.mem_cons_of_mem _ h)),
      propagateStep_untouched u _
        (fun h => hmem (by rw [h]; exact List.mem_cons_self _ _))]

theorem propagateStep_notifExt (u : String) (acc : Store × List (String × JSVal))
    (k : String) : ∃ tail, (propagateStep u acc k).2 = acc.2 ++ tail := by
  unfold propagateStep
  cases hk : storeGet acc.1 k with
  | none => exact ⟨[], by simp⟩
  | some recK =>
    cases hmk : strIncludes recK.formula u with
    | false => exact ⟨[], by simp [hmk]⟩
    | true =>
      exact ⟨[(k, evaluateExpression acc.1 (strDrop recK.formula 1))], by simp [hmk]⟩

theorem propagateFold_notifExt (u : String) :
    ∀ (keys : List String) (acc : Store × List (String × JSVal)),
    ∃ tail, (keys.foldl (propagateStep u) acc).2 = acc.2 ++ tail := by
  intro keys
  induction keys with
  | nil => intro acc; exact ⟨[], by simp⟩
  | cons k keys ih =>
    intro acc
    rw [List.foldl_cons]
    obtain ⟨t1, ht1⟩ := propagateStep_notifExt u acc k
    obtain ⟨t2, ht2⟩ := ih (propagateStep u acc k)
    exact ⟨t1 ++ t2, by rw [ht2, ht1, List.append_assoc]⟩

theorem matchB_congr {s t : Store}
    (h : ∀ id, (storeGet s id).map (fun r => r.formula)
      = (storeGet t id).map (fun r => r.formula)) (u k : String) :
    matchB s u k = matchB t u k := by
  have hk := h k
  unfold matchB
  cases hs : storeGet s k with
  | none =>
    cases ht : storeGet t k with
    | none => rfl
    | some rect => rw [hs, ht] at hk; cases hk
  | some recs =>
    cases ht : storeGet t k with
    | none => rw [hs, ht] at hk; cases hk
    | some rect =>
      rw [hs, ht] at hk
      simp only [Option.map_some', Option.some.injEq] at hk
      simp only [hk]

theorem propagateStep_notifIds (u : String) (acc : Store × List (String × JSVal))
    (k : String) :
    ((propagateStep u acc k).2).map Prod.fst
      = acc.2.map Prod.fst ++ (if matchB acc.1 u k then [k] else []) := by
  unfold propagateStep matchB
  cases hk : storeGet acc.1 k with
  | none => simp
  | some recK =>
    cases hmk : strIncludes recK.formula u with
    | false => simp [hmk]
    | true => simp [hmk]

theorem propagateFold_notifIds (u : String) :
    ∀ (keys : List String) (st : Store) (ns : List (String × JSVal)),
    ((keys.foldl (propagateStep u) (st, ns)).2).map Prod.fst
      = ns.map Prod.fst ++ keys.filter (fun k => matchB st u k) := by
  intro keys
  induction keys with
  | nil => intro st ns; simp
  | cons k keys ih =>
    intro st ns
    rw [List.foldl_cons]
    have hstepF : ∀ id,
        (storeGet (propagateStep u (st, ns) k).1 id).map (fun r => r.formula)
          = (storeGet st id).map (fun r => r.formula) :=
      fun id => propagateStep_formula u (st, ns) k id
    have hmatch : (fun k' => matchB (propagateStep u (st, ns) k).1 u k')
        = fun k' => matchB st u k' :=
      funext (fun k' => matchB_congr hstepF u k')
    have := ih (propagateStep u (st, ns) k).1 (propagateStep u (st, ns) k).2
    rw [this, hmatch, propagateStep_notifIds u (st, ns) k]
    cases hm : matchB st u k with
    | false => simp [List.filter_cons, hm]
    | true => simp [List.filter_cons, hm]

theorem propagateFold_matched (u : String) :
    ∀ (keys : List String) (st : Store) (ns : List (String × JSVal))
      (id : String) (rec : CellRecord),
    id ∈ keys → storeGet st id = some rec → strIncludes rec.formula u = true →
    ∃ v, storeGet ((keys.foldl (propagateStep u) (st, ns)).1) id
          = some ⟨rec.formula, v⟩ ∧
        (id, v) ∈ (keys.foldl (propagateStep u) (st, ns)).2 := by
  intro keys
  induction keys with
  | nil => intro st ns id rec hmem; cases hmem
  | cons k keys ih =>
    intro st ns id rec hmem hget hinc
    rw [List.foldl_cons]
    by_cases hid : id = k
    · subst hid
      have hstep : propagateStep u (st, ns) id =
          (storeSet st id ⟨rec.formula, evaluateExpression st (strDrop rec.formula 1)⟩,
           ns ++ [(id, evaluateExpression st (strDrop rec.formula 1))]) := by
        unfold propagateStep
        rw [hget]
        simp [hinc]
      rw [hstep]
      by_cases hmem2 : id ∈ keys
      · exact ih _ _ id ⟨rec.formula, evaluateExpression st (strDrop rec.formula 1)⟩
          hmem2 (storeGet_storeSet_self _ _ _) hinc
      · refine ⟨evaluateExpression st (strDrop rec.formula 1), ?_, ?_⟩
        · rw [propagateFold_untouched u keys _ hmem2]
          exact storeGet_storeSet_self _ _ _
        · obtain ⟨tail, htail⟩ := propagateFold_notifExt u keys
            (storeSet st id ⟨rec.formula, evaluateExpression st (strDrop rec.formula 1)⟩,
             ns ++ [(id, evaluateExpression st (strDrop rec.formula 1))])
          rw [htail]
          exact List.mem_append_left _ (List.mem_append_right _ (List.mem_singleton.mpr rfl))
    · have hmem2 : id ∈ keys := by
        cases List.mem_cons.mp hmem with
        | inl h => exact absurd h hid
        | inr h => exact h
      have hget' : storeGet (propagateStep u (st, ns) k).1 id = some rec := by
        rw [propagateStep_untouched u (st, ns) hid]
        exact hget
      exact ih (propagateStep u (st, ns) k).1 (propagateStep u (st, ns) k).2
        id rec hmem2 hget' hinc

/-! ### Corollaries for `updateDependentCells` -/

theorem updateDependentCells_formula (s : Store) (u id : String) :
    (storeGet (updateDependentCells s u).1 id).map (fun r => r.formula)
      = (storeGet s id).map (fun r => r.formula) :=
  propagateFold_formula u (storeKeys s) (s, []) id

theorem updateDependentCells_frame {s : Store} {u id : String} {rec : CellRecord}
    (hget : storeGet s id = some rec) (hm : strIncludes rec.formula u = false) :
    storeGet (updateDependentCells s u).1 id = some rec :=
  propagateFold_frame u (storeKeys s) (s, []) hget hm

theorem updateDependentCells_notifIds (s : Store) (u : String) :
    ((updateDependentCells s u).2).map Prod.fst
      = (storeKeys s).filter (fun k => matchB s u k) := by
  have := propagateFold_notifIds u (storeKeys s) s []
  simpa [updateDependentCells] using this

theorem updateDependentCells_matched {s : Store} {u id : String} {rec : CellRecord}
    (hget : storeGet s id = some rec) (hinc : strIncludes rec.formula u = true) :
    ∃ v, storeGet (updateDependentCells s u).1 id = some ⟨rec.formula, v⟩ ∧
      (id, v) ∈ (updateDependentCells s u).2 :=
  propagateFold_matched u (storeKeys s) s [] id rec
    (mem_storeKeys_of_get hget) hget hinc

/-! ### Small string facts -/

theorem str_empty_append (s : String) : "" ++ s = s := by
  obtain ⟨l⟩ := s
  rfl

theorem strIncludes_empty_left {id : String} (h : id ≠ "") :
    strIncludes "" id = false := by
  unfold strIncludes
  cases hd : id.data with
  | nil =>
    exfalso
    apply h
    obtain ⟨l⟩ := id
    have hl : l = [] := hd
    rw [hl]
  | cons c l =>
    rw [show ("" : String).data = [] from rfl, listHasSub]
    rfl

/-! ### Column-header lemmas (fuel irrelevance and agreement with the
spec's bijective base-26 recurrence) -/

theorem headerOfF_irrel : ∀ (q f g : Nat), q < f → q < g →
    headerOfF f q = headerOfF g q := by
  intro q
  induction q using Nat.strong_induction_on with
  | _ q ih =>
    intro f g hf hg
    cases f with
    | zero => omega
    | succ f =>
      cases g with
      | zero => omega
      | succ g =>
        simp only [headerOfF]
        by_cases h26 : q < 26
        · simp [h26]
        · have hdiv : q / 26 < q := Nat.div_lt_self (by omega) (by omega)
          rw [if_neg h26, if_neg h26,
            ih (q / 26 - 1) (by omega) f g (by omega) (by omega)]

theorem specColumnLabelF_zero : ∀ f, specColumnLabelF f 0 = "" := by
  intro f
  cases f with
  | zero => rfl
  | succ f => rfl

theorem specColumnLabelF_irrel : ∀ (n f g : Nat), n ≤ f → n ≤ g →
    specColumnLabelF f n = specColumnLabelF g n := by
  intro n
  induction n using Nat.strong_induction_on with
  | _ n ih =>
    intro f g hf hg
    by_cases h0 : n = 0
    · subst h0
      rw [specColumnLabelF_zero, specColumnLabelF_zero]
    · cases f with
      | zero => omega
      | succ f =>
        cases g with
        | zero => omega
        | succ g =>
          simp only [specColumnLabelF]
          have hdiv : (n - 1) / 26 < n := by
            have := Nat.div_le_self (n - 1) 26
            omega
          rw [if_neg h0, if_neg h0,
            ih ((n - 1) / 26) hdiv f g (by omega) (by omega)]

theorem headerOf_eq_spec : ∀ q, headerOf q = specColumnLabel (q + 1) := by
  intro q
  induction q using Nat.strong_induction_on with
  | _ q ih =>
    show headerOfF (q + 1) q = specColumnLabelF (q + 1) (q + 1)
    rw [show specColumnLabelF (q + 1) (q + 1)
        = specColumnLabelF q (q / 26) ++ String.mk [Char.ofNat (65 + q % 26)] by
      simp only [specColumnLabelF]
      rw [if_neg (Nat.succ_ne_zero q), Nat.add_sub_cancel]]
    by_cases h26 : q < 26
    · rw [show headerOfF (q + 1) q = String.mk [Char.ofNat (65 + q % 26)] by
        simp only [headerOfF]
        rw [if_pos h26]]
      rw [Nat.div_eq_of_lt h26, specColumnLabelF_zero, str_empty_append]
    · have hdiv : q / 26 < q := Nat.div_lt_self (by omega) (by omega)
      have hone : 1 ≤ q / 26 := by
        rw [Nat.one_le_div_iff (by omega)]
        omega
      rw [show headerOfF (q + 1) q
          = headerOfF q (q / 26 - 1) ++ String.mk [Char.ofNat (65 + q % 26)] by
        simp only [headerOfF]
        rw [if_neg h26]]
      rw [headerOfF_irrel (q / 26 - 1) q (q / 26 - 1 + 1) (by omega) (by omega)]
      rw [show headerOfF (q / 26 - 1 + 1) (q / 26 - 1) = headerOf (q / 26 - 1) from rfl]
      rw [ih (q / 26 - 1) (by omega)]
      rw [show q / 26 - 1 + 1 = q / 26 by omega]
      rw [show specColumnLabel (q / 26) = specColumnLabelF (q / 26) (q / 26) from rfl]
      rw [specColumnLabelF_irrel (q / 26) (q / 26) q (by omega) (by omega)]

theorem getColumnHeaders_eq_spec (n : Nat) :
    getColumnHeaders n = (List.range n).map (fun i => specColumnLabel (i + 1)) := by
  unfold getColumnHeaders
  rw [funext headerOf_eq_spec]

/-! ### The shape of `evaluateExpression` (for the error-sentinel claim) -/

theorem evaluateExpression_eq_substituted (s : Store) (e : String) :
    evaluateExpression s e =
      match substitutedExpr s e with
      | none => JSVal.str "N/A"
      | some t => finishEval t := by
  unfold evaluateExpression substitutedExpr
  cases hf : findFunctionMatch e.data with
  | none => rfl
  | some fm =>
    cases hs : isSupportedFunction (String.mk (fm.takeWhile (fun c => !(c == '(')))) with
    | false => simp [hs]
    | true => simp [hs]

/-! ### Scanning lemmas for `parseCellId` on a letters-then-digits label -/

theorem takeWhile_append_all {p : Char → Bool} :
    ∀ (cs ds : List Char), (∀ c ∈ cs, p c = true) →
    (cs ++ ds).takeWhile p = cs ++ ds.takeWhile p := by
  intro cs
  induction cs with
  | nil => intro ds _; rfl
  | cons c cs ih =>
    intro ds h
    rw [List.cons_append, List.takeWhile_cons, if_pos (h c (List.mem_cons_self _ _)),
      ih ds (fun d hd => h d (List.mem_cons_of_mem _ hd))]
    rfl

theorem takeWhile_nil_of_false {p : Char → Bool} :
    ∀ (l : List Char), (∀ c ∈ l, p c = false) → l.takeWhile p = [] := by
  intro l h
  cases l with
  | nil => rfl
  | cons c rest => simp [List.takeWhile_cons, h c (List.mem_cons_self _ _)]

theorem firstRun_pos {p : Char → Bool} :
    ∀ (cs ds : List Char), cs ≠ [] → (∀ c ∈ cs, p c = true) →
    firstRun p (cs ++ ds) = some (cs ++ ds.takeWhile p) := by
  intro cs ds hne h
  cases cs with
  | nil => exact absurd rfl hne
  | cons c cs =>
    rw [List.cons_append, firstRun, if_pos (h c (List.mem_cons_self _ _)),
      show (c :: (cs ++ ds)) = (c :: cs) ++ ds from rfl,
      takeWhile_append_all (c :: cs) ds h]

theorem firstRun_skip {p : Char → Bool} :
    ∀ (cs ds : List Char), (∀ c ∈ cs, p c = false) →
    firstRun p (cs ++ ds) = firstRun p ds := by
  intro cs
  induction cs with
  | nil => intro ds _; rfl
  | cons c cs ih =>
    intro ds h
    rw [List.cons_append, firstRun, if_neg (by
      rw [h c (List.mem_cons_self _ _)]
      exact fun hh => Bool.false_ne_true hh)]
    exact ih ds (fun d hd => h d (List.mem_cons_of_mem _ hd))

theorem upper_not_digit {c : Char} (h : isUpperAlpha c = true) :
    isDigitCh c = false := by
  simp only [isUpperAlpha, Bool.and_eq_true, decide_eq_true_eq] at h
  simp only [isDigitCh, Bool.and_eq_false_iff, decide_eq_false_iff_not]
  omega

theorem digit_not_upper {c : Char} (h : isDigitCh c = true) :
    isUpperAlpha c = false := by
  simp only [isDigitCh, Bool.and_eq_true, decide_eq_true_eq] at h
  simp only [isUpperAlpha, Bool.and_eq_false_iff, decide_eq_false_iff_not]
  omega

theorem takeWhile_of_all {p : Char → Bool} :
    ∀ (l : List Char), (∀ c ∈ l, p c = true) → l.takeWhile p = l := by
  intro l
  induction l with
  | nil => intro _; rfl
  | cons c rest ih =>
    intro h
    rw [List.takeWhile_cons, if_pos (h c (List.mem_cons_self _ _)),
      ih (fun d hd => h d (List.mem_cons_of_mem _ hd))]

theorem parseCellId_split (cs ds : List Char) (hcs : cs ≠ []) (hds : ds ≠ [])
    (hup : ∀ c ∈ cs, isUpperAlpha c = true)
    (hdig : ∀ c ∈ ds, isDigitCh c = true) :
    parseCellId (String.mk (cs ++ ds)) = some (String.mk cs, digitsToNat ds) := by
  have hA : firstRun isUpperAlpha (cs ++ ds) = some cs := by
    rw [firstRun_pos cs ds hcs hup,
      takeWhile_nil_of_false ds (fun d hd => digit_not_upper (hdig d hd)),
      List.append_nil]
  have hD : firstRun isDigitCh (cs ++ ds) = some ds := by
    rw [firstRun_skip cs ds (fun c hc => upper_not_digit (hup c hc))]
    cases ds with
    | nil => exact absurd rfl hds
    | cons d ds' =>
      rw [firstRun, if_pos (hdig d (List.mem_cons_self _ _)),
        takeWhile_of_all (d :: ds') hdig]
  unfold parseCellId
  rw [show (String.mk (cs ++ ds)).data = cs ++ ds from rfl, hA, hD]

/-! ### Fold fusion for `sumRange` over the visited-cell list -/

theorem foldl_flatMap {α β γ : Type} (g : α → List β) (f : γ → β → γ) :
    ∀ (l : List α) (init : γ),
    (l.flatMap g).foldl f init = l.foldl (fun a x => (g x).foldl f a) init := by
  intro l
  induction l with
  | nil => intro init; rfl
  | cons x l ih =>
    intro init
    rw [List.flatMap_cons, List.foldl_append, ih, List.foldl_cons]

theorem sumRange_eq_rangeCells (s : Store) (startCol : String) (startRow : Nat)
    (endCol : String) (endRow : Nat) :
    sumRange s startCol startRow endCol endRow
      = (rangeCells startCol startRow endCol endRow).foldl
          (fun acc id => jsAdd acc (parseFloatJS (valToString (getDotValue s id))))
          (JNum.rat (JRat.ofInt 0)) := by
  unfold sumRange rangeCells
  rw [foldl_flatMap]
  simp only [List.foldl_map]

theorem jsIsNaN_true_iff (r : JNum) : jsIsNaN r = true ↔ r = JNum.nan := by
  cases r <;> simp [jsIsNaN]

theorem finishEval_none {t : String} (h : evalArith t = none) :
    finishEval t = JSVal.str "N/A" := by
  unfold finishEval
  simp only [h]

theorem finishEval_isnan {t : String} {r : JNum} (h : evalArith t = some r)
    (hn : jsIsNaN r = true) : finishEval t = JSVal.str "" := by
  unfold finishEval
  simp only [h]
  rw [if_pos hn]

theorem finishEval_num {t : String} {r : JNum} (h : evalArith t = some r)
    (hn : jsIsNaN r = false) : finishEval t = JSVal.num r := by
  unfold finishEval
  simp only [h]
  rw [if_neg (by rw [hn]; exact Bool.false_ne_true)]

theorem substitutedExpr_none_iff (s : Store) (e : String) :
    substitutedExpr s e = none ↔
      ∃ fm, findFunctionMatch e.data = some fm ∧
        isSupportedFunction (String.mk (fm.takeWhile (fun c => !(c == '(')))) = false := by
  unfold substitutedExpr
  cases hf : findFunctionMatch e.data with
  | none => simp
  | some fm =>
    cases hs : isSupportedFunction (String.mk (fm.takeWhile (fun c => !(c == '(')))) with
    | false => simp [hs]
    | true => simp [hs]

/-! ### The claims -/

/-- C1: the claim says the SUM reducer treats a missing record as
contributing 0, so a partially or wholly unset range sums the set cells'
values (0 when all are unset) and never yields NaN.  The code disagrees:
`(cells[id] || 0).value` is `undefined` for a missing cell (the number
`0` has no `value` property), `parseFloat(undefined)` is `NaN`, and the
accumulated sum is poisoned, so `SUM(A1:A3)` with only `A1 = "1"`
evaluates the sum to `NaN` and displays `""` instead of `1`.  The last
conjunct shows the fully-set range behaving as intended (sum 6),
evidencing that the `|| 0` fallback (commented "Treat empty cells as 0"
at its twin use) was meant to contribute 0. -/
theorem C1_sum_missing_cell_poisons_sum :
    sumRange [] "A" 1 "A" 3 = JNum.nan ∧
    sumRange [("A1", ⟨"", JSVal.str "1"⟩)] "A" 1 "A" 3 = JNum.nan ∧
    evaluateExpression [("A1", ⟨"", JSVal.str "1"⟩)] "SUM(A1:A3)" = JSVal.str "" ∧
    evaluateExpression [("A1", ⟨"", JSVal.str "1"⟩), ("A2", ⟨"", JSVal.str "2"⟩),
        ("A3", ⟨"", JSVal.str "3"⟩)] "SUM(A1:A3)"
      = JSVal.num (JNum.rat ⟨6, 1⟩) :=
  ⟨by decide, by decide, by decide, by decide⟩

/-- C2: the claim says a plain arithmetic expression referencing a
never-set address substitutes the literal 0, so `Z99+1` with `Z99` unset
returns the number 1.  The code disagrees: `(cells["Z99"] || 0).value`
is `undefined`, `String.prototype.replace` splices the text
`"undefined"`, and `eval("undefined+1")` is `NaN`, so the result is the
sentinel `""`, not 1.  The last conjunct shows that substituting an
actual stored 0 (the intended behavior) does produce 1. -/
theorem C2_missing_reference_yields_empty_not_one :
    evaluateExpression [] "Z99+1" = JSVal.str "" ∧
    JSVal.str "" ≠ JSVal.num (JNum.rat ⟨1, 1⟩) ∧
    evaluateExpression [("Z99", ⟨"", JSVal.str "0"⟩)] "Z99+1"
      = JSVal.num (JNum.rat ⟨1, 1⟩) :=
  ⟨by decide, by decide, by decide⟩

/-- C3 is false as stated: the committed value is not rawText unmodified.
`evaluateFormula` trims and uppercases the input before the `=` test, so
committing the literal `"abc"` stores the value `"ABC"` (a case change
the claim excludes). -/
theorem C3_counterexample_literal_uppercased :
    storeGet (evaluateFormula [] "A1" "abc").1 "A1"
      = some ⟨"", JSVal.str "ABC"⟩ ∧
    JSVal.str "ABC" ≠ JSVal.str "abc" :=
  ⟨by decide, by decide⟩

/-- C3 (amended): for every rawText whose trimmed-and-uppercased form does
not start with `"="`, the commit stores a record with empty formulaText
and with value the trimmed-and-uppercased rawText (still with no numeric
coercion — the value is stored as a string), and reading the cell
afterwards yields exactly that normalized text. -/
theorem C3_literal_commit_stores_normalized_text
    (s : Store) (cellId rawText : String) (hid : cellId ≠ "")
    (h : strStartsWith (toUpperJS (trimJS rawText)) "=" = false) :
    storeGet (evaluateFormula s cellId rawText).1 cellId
      = some ⟨"", JSVal.str (toUpperJS (trimJS rawText))⟩ := by
  unfold evaluateFormula
  simp only [h, Bool.false_eq_true, if_false]
  exact updateDependentCells_frame (storeGet_storeSet_self _ _ _)
    (strIncludes_empty_left hid)

/-- Witness for C3 (amended) at the concrete literal commit of `"abc"`. -/
theorem C3_literal_commit_witness :
    (("A1" : String) ≠ "" ∧
      strStartsWith (toUpperJS (trimJS "abc")) "=" = false) ∧
    storeGet (evaluateFormula [] "A1" "abc").1 "A1"
      = some ⟨"", JSVal.str (toUpperJS (trimJS "abc"))⟩ :=
  ⟨⟨by decide, by decide⟩,
   C3_literal_commit_stores_normalized_text [] "A1" "abc" (by decide) (by decide)⟩

/-- C4: after an edit, the renderer notifications of the propagation pass
are exactly the stored keys whose formula text contains the edited id as
a substring (once each, in store order); every such cell's record is
overwritten with a re-evaluated value which is also the value notified;
and concretely, with A1=5, A2=3 and A3 holding "=A1+A2" (stored value 8),
committing "10" to A1 leaves the store with A3's value 13 and fires
exactly one notification, for A3 with 13, without a direct edit to A3. -/
theorem C4_propagation_updates_dependents :
    (∀ (s : Store) (u : String),
      ((updateDependentCells s u).2).map Prod.fst
        = (storeKeys s).filter (fun k => matchB s u k)) ∧
    (∀ (s : Store) (u id : String) (rec : CellRecord),
      storeGet s id = some rec → strIncludes rec.formula u = true →
      ∃ v, storeGet (updateDependentCells s u).1 id = some ⟨rec.formula, v⟩ ∧
        (id, v) ∈ (updateDependentCells s u).2) ∧
    storeGet (evaluateFormula (evaluateFormula (evaluateFormula []
        "A1" "5").1 "A2" "3").1 "A3" "=A1+A2").1 "A3"
      = some ⟨"=A1+A2", JSVal.num (JNum.rat ⟨8, 1⟩)⟩ ∧
    evaluateFormula (evaluateFormula (evaluateFormula (evaluateFormula []
        "A1" "5").1 "A2" "3").1 "A3" "=A1+A2").1 "A1" "10"
      = ([("A1", ⟨"", JSVal.str "10"⟩), ("A2", ⟨"", JSVal.str "3"⟩),
          ("A3", ⟨"=A1+A2", JSVal.num (JNum.rat ⟨13, 1⟩)⟩)],
         [("A3", JSVal.num (JNum.rat ⟨13, 1⟩))]) :=
  ⟨updateDependentCells_notifIds,
   fun _ _ _ _ hget hinc => updateDependentCells_matched hget hinc,
   by decide, by decide⟩

/-- Witness for C4 applying the general overwrite-and-notify part at the
concrete store of the propagation scenario. -/
theorem C4_propagation_witness :
    (storeGet [("A1", ⟨"", JSVal.str "10"⟩), ("A2", ⟨"", JSVal.str "3"⟩),
        ("A3", ⟨"=A1+A2", JSVal.num (JNum.rat ⟨8, 1⟩)⟩)] "A3"
      = some ⟨"=A1+A2", JSVal.num (JNum.rat ⟨8, 1⟩)⟩ ∧
     strIncludes "=A1+A2" "A1" = true) ∧
    ∃ v, storeGet (updateDependentCells [("A1", ⟨"", JSVal.str "10"⟩),
        ("A2", ⟨"", JSVal.str "3"⟩),
        ("A3", ⟨"=A1+A2", JSVal.num (JNum.rat ⟨8, 1⟩)⟩)] "A1").1 "A3"
        = some ⟨"=A1+A2", v⟩ ∧
      ("A3", v) ∈ (updateDependentCells [("A1", ⟨"", JSVal.str "10"⟩),
        ("A2", ⟨"", JSVal.str "3"⟩),
        ("A3", ⟨"=A1+A2", JSVal.num (JNum.rat ⟨8, 1⟩)⟩)] "A1").2 :=
  ⟨⟨by decide, by decide⟩,
   C4_propagation_updates_dependents.2.1 _ "A1" "A3"
     ⟨"=A1+A2", JSVal.num (JNum.rat ⟨8, 1⟩)⟩ (by decide) (by decide)⟩

/-- C5: `getColumnHeaders n` returns the first n labels of the bijective
base-26 alphabetic numbering (the spec's recurrence: letter (k-1) mod 26,
then k := floor((k-1)/26), stop at 0); in particular label 1 is "A",
label 26 is "Z", label 27 is "AA" and label 28 is "AB". -/
theorem C5_column_labels_bijective_base26 :
    (∀ n : Nat, getColumnHeaders n
      = (List.range n).map (fun i => specColumnLabel (i + 1))) ∧
    getColumnHeaders 1 = ["A"] ∧
    (getColumnHeaders 28)[25]? = some "Z" ∧
    (getColumnHeaders 28)[26]? = some "AA" ∧
    (getColumnHeaders 28)[27]? = some "AB" :=
  ⟨getColumnHeaders_eq_spec, by decide, by decide, by decide, by decide⟩

/-- C6: `evaluateExpression` returns "N/A" exactly when the
unsupported-function branch fires (characterized in the last conjunct) or
the final arithmetic evaluation of the substituted string throws; it
returns "" exactly when arithmetic evaluation succeeds with NaN; and it
returns a number exactly when evaluation succeeds with a non-NaN value —
so the two failure sentinels are never interchanged. -/
theorem C6_error_sentinels_trichotomy (s : Store) (e : String) :
    (evaluateExpression s e = JSVal.str "N/A" ↔
      substitutedExpr s e = none ∨
        ∃ t, substitutedExpr s e = some t ∧ evalArith t = none) ∧
    (evaluateExpression s e = JSVal.str "" ↔
      ∃ t, substitutedExpr s e = some t ∧ evalArith t = some JNum.nan) ∧
    (∀ q : JNum, evaluateExpression s e = JSVal.num q ↔
      ∃ t, substitutedExpr s e = some t ∧ evalArith t = some q ∧
        jsIsNaN q = false) ∧
    (substitutedExpr s e = none ↔
      ∃ fm, findFunctionMatch e.data = some fm ∧
        isSupportedFunction (String.mk (fm.takeWhile (fun c => !(c == '(')))) = false) := by
  have hmain := evaluateExpression_eq_substituted s e
  refine ⟨?_, ?_, ?_, substitutedExpr_none_iff s e⟩
  · cases hsub : substitutedExpr s e with
    | none =>
      rw [hsub] at hmain
      have hm2 : evaluateExpression s e = JSVal.str "N/A" := hmain
      rw [hm2]
      simp
    | some t =>
      rw [hsub] at hmain
      have hm2 : evaluateExpression s e = finishEval t := hmain
      cases hev : evalArith t with
      | none =>
        rw [hm2, finishEval_none hev]
        simp [hev]
      | some r =>
        cases hnan : jsIsNaN r with
        | true =>
          rw [hm2, finishEval_isnan hev hnan]
          simp [hev]
        | false =>
          rw [hm2, finishEval_num hev hnan]
          simp [hev]
  · cases hsub : substitutedExpr s e with
    | none =>
      rw [hsub] at hmain
      have hm2 : evaluateExpression s e = JSVal.str "N/A" := hmain
      rw [hm2]
      simp
    | some t =>
      rw [hsub] at hmain
      have hm2 : evaluateExpression s e = finishEval t := hmain
      cases hev : evalArith t with
      | none =>
        rw [hm2, finishEval_none hev]
        simp [hev]
      | some r =>
        cases hnan : jsIsNaN r with
        | true =>
          rw [hm2, finishEval_isnan hev hnan]
          have hr : r = JNum.nan := (jsIsNaN_true_iff r).mp hnan
          subst hr
          simp [hev]
        | false =>
          rw [hm2, finishEval_num hev hnan]
          have hr : r ≠ JNum.nan := by
            intro hh
            rw [hh] at hnan
            exact Bool.noConfusion hnan
          simp [hev, hr]
  · intro q
    cases hsub : substitutedExpr s e with
    | none =>
      rw [hsub] at hmain
      have hm2 : evaluateExpression s e = JSVal.str "N/A" := hmain
      rw [hm2]
      constructor
      · intro h
        exact JSVal.noConfusion h
      · rintro ⟨t, ht, _⟩
        exact Option.noConfusion ht
    | some t =>
      rw [hsub] at hmain
      have hm2 : evaluateExpression s e = finishEval t := hmain
      cases hev : evalArith t with
      | none =>
        rw [hm2, finishEval_none hev]
        constructor
        · intro h
          exact JSVal.noConfusion h
        · rintro ⟨t', ht', hev', _⟩
          injection ht' with h1
          subst h1
          rw [hev] at hev'
          exact Option.noConfusion hev'
      | some r =>
        cases hnan : jsIsNaN r with
        | true =>
          rw [hm2, finishEval_isnan hev hnan]
          constructor
          · intro h
            exact JSVal.noConfusion h
          · rintro ⟨t', ht', hev', hq⟩
            injection ht' with h1
            subst h1
            rw [hev] at hev'
            injection hev' with h2
            subst h2
            rw [hnan] at hq
            exact Bool.noConfusion hq
        | false =>
          rw [hm2, finishEval_num hev hnan]
          constructor
          · intro h
            injection h with h1
            subst h1
            exact ⟨t, rfl, hev, hnan⟩
          · rintro ⟨t', ht', hev', _⟩
            injection ht' with h1
            subst h1
            rw [hev] at hev'
            injection hev' with h2
            subst h2
            rfl

/-- C7: propagation is single-level: a stored cell whose formula text
does not contain the edited address as a substring keeps its exact record
across a commit to that address — in particular a cell C depending only
on B is not re-evaluated when A is edited, even though B (which depends
on A) is. -/
theorem C7_no_transitive_propagation (s : Store) (u rawText cid : String)
    (recC : CellRecord) (hne : cid ≠ u) (hget : storeGet s cid = some recC)
    (hinc : strIncludes recC.formula u = false) :
    storeGet (evaluateFormula s u rawText).1 cid = some recC := by
  unfold evaluateFormula
  cases hb : strStartsWith (toUpperJS (trimJS rawText)) "=" with
  | true =>
    rw [if_pos hb]
    exact updateDependentCells_frame
      ((storeGet_storeSet_ne s _ hne).trans hget) hinc
  | false =>
    rw [if_neg (by rw [hb]; exact Bool.false_ne_true)]
    exact updateDependentCells_frame
      ((storeGet_storeSet_ne s _ hne).trans hget) hinc

/-- Witness for C7 on the A1/B1/C1 chain: editing A1 re-evaluates B1
(20) but leaves C1 — whose formula "=B1+1" does not mention A1 — exactly
as stored (value 5). -/
theorem C7_no_transitive_propagation_witness :
    (("C1" : String) ≠ "A1" ∧
      storeGet [("A1", ⟨"", JSVal.str "2"⟩),
        ("B1", ⟨"=A1*2", JSVal.num (JNum.rat ⟨4, 1⟩)⟩),
        ("C1", ⟨"=B1+1", JSVal.num (JNum.rat ⟨5, 1⟩)⟩)] "C1"
        = some ⟨"=B1+1", JSVal.num (JNum.rat ⟨5, 1⟩)⟩ ∧
      strIncludes "=B1+1" "A1" = false) ∧
    storeGet (evaluateFormula [("A1", ⟨"", JSVal.str "2"⟩),
        ("B1", ⟨"=A1*2", JSVal.num (JNum.rat ⟨4, 1⟩)⟩),
        ("C1", ⟨"=B1+1", JSVal.num (JNum.rat ⟨5, 1⟩)⟩)] "A1" "10").1 "C1"
      = some ⟨"=B1+1", JSVal.num (JNum.rat ⟨5, 1⟩)⟩ ∧
    storeGet (evaluateFormula [("A1", ⟨"", JSVal.str "2"⟩),
        ("B1", ⟨"=A1*2", JSVal.num (JNum.rat ⟨4, 1⟩)⟩),
        ("C1", ⟨"=B1+1", JSVal.num (JNum.rat ⟨5, 1⟩)⟩)] "A1" "10").1 "B1"
      = some ⟨"=A1*2", JSVal.num (JNum.rat ⟨20, 1⟩)⟩ :=
  ⟨⟨by decide, by decide, by decide⟩,
   C7_no_transitive_propagation _ "A1" "10" "C1"
     ⟨"=B1+1", JSVal.num (JNum.rat ⟨5, 1⟩)⟩ (by decide) (by decide) (by decide),
   by decide⟩

/-- C8 is false as stated: committing "=a1+a2" stores the formula text
"=A1+A2" — the full trimmed-and-uppercased input including the leading
"=" — not the stripped body "A1+A2" the claim describes. -/
theorem C8_counterexample_formula_keeps_equals :
    (storeGet (evaluateFormula [] "A3" "=a1+a2").1 "A3").map (fun r => r.formula)
      = some "=A1+A2" ∧
    ("=A1+A2" : String) ≠ "A1+A2" :=
  ⟨by decide, by decide⟩

/-- C8 (amended): after committing any rawText whose trimmed uppercased
form starts with "=", the stored record's formulaText equals that full
trimmed uppercased text with the leading "=" still present; and this
shape is preserved by every subsequent operation — propagation never
changes any stored formula text, and neither does an edit of a different
cell. -/
theorem C8_formula_stored_with_leading_equals :
    (∀ (s : Store) (cellId rawText : String),
      strStartsWith (toUpperJS (trimJS rawText)) "=" = true →
      (storeGet (evaluateFormula s cellId rawText).1 cellId).map (fun r => r.formula)
        = some (toUpperJS (trimJS rawText))) ∧
    (∀ (s : Store) (u id : String),
      (storeGet (updateDependentCells s u).1 id).map (fun r => r.formula)
        = (storeGet s id).map (fun r => r.formula)) ∧
    (∀ (s : Store) (u rawText id : String), id ≠ u →
      (storeGet (evaluateFormula s u rawText).1 id).map (fun r => r.formula)
        = (storeGet s id).map (fun r => r.formula)) := by
  refine ⟨?_, updateDependentCells_formula, ?_⟩
  · intro s cellId rawText h
    unfold evaluateFormula
    rw [if_pos h, updateDependentCells_formula, storeGet_storeSet_self]
    rfl
  · intro s u rawText id hne
    unfold evaluateFormula
    cases hb : strStartsWith (toUpperJS (trimJS rawText)) "=" with
    | true =>
      rw [if_pos hb, updateDependentCells_formula, storeGet_storeSet_ne s _ hne]
    | false =>
      rw [if_neg (by rw [hb]; exact Bool.false_ne_true),
        updateDependentCells_formula, storeGet_storeSet_ne s _ hne]

/-- Witness for C8 (amended) at the concrete commit of "=a1+a2". -/
theorem C8_formula_stored_witness :
    strStartsWith (toUpperJS (trimJS "=a1+a2")) "=" = true ∧
    (storeGet (evaluateFormula [] "A3" "=a1+a2").1 "A3").map (fun r => r.formula)
      = some (toUpperJS (trimJS "=a1+a2")) :=
  ⟨by decide, C8_formula_stored_with_leading_equals.1 [] "A3" "=a1+a2" (by decide)⟩

/-- C9: `parseCellId` splits any letters-then-digits label into its
column-letters part and its row number; `parseCellId "B12"` yields the
column label "B" — which is the generated column label of 0-based index 1
(`getColumnHeaders` is built for COLUMNS = 100) — and row 12. -/
theorem C9_parseCellId_splits_letters_digits :
    (∀ (cs ds : List Char), cs ≠ [] → ds ≠ [] →
      (∀ c ∈ cs, isUpperAlpha c = true) → (∀ c ∈ ds, isDigitCh c = true) →
      parseCellId (String.mk (cs ++ ds)) = some (String.mk cs, digitsToNat ds)) ∧
    parseCellId "B12" = some ("B", 12) ∧
    (getColumnHeaders 100)[1]? = some "B" :=
  ⟨parseCellId_split, by decide, by decide⟩

/-- Witness for C9 applying the general splitting part at "B12". -/
theorem C9_parseCellId_witness :
    ((['B'] : List Char) ≠ [] ∧ (['1', '2'] : List Char) ≠ []) ∧
    parseCellId (String.mk (['B'] ++ ['1', '2']))
      = some (String.mk ['B'], digitsToNat ['1', '2']) :=
  ⟨⟨by decide, by decide⟩,
   C9_parseCellId_splits_letters_digits.1 ['B'] ['1', '2']
     (by decide) (by decide) (by decide) (by decide)⟩

/-- C10: `sumRange` keys its column loop on only the first character of
each endpoint's column label: the visited cells are exactly `rangeCells`
(whose column codes run from `charCodeAt(0)` of the start label to that
of the end label), a multi-letter label contributes the same sum as its
first letter alone, the cells visited for AA1:AB2 are exactly A1 and A2,
and `SUM(AA1:AB2)` sums A1 and A2 (3) while ignoring the stored values of
AA1, AB1 and AB2. -/
theorem C10_sum_range_uses_first_letter_only :
    (∀ (s : Store) (startCol : String) (startRow : Nat)
        (endCol : String) (endRow : Nat),
      sumRange s startCol startRow endCol endRow
        = (rangeCells startCol startRow endCol endRow).foldl
            (fun acc id => jsAdd acc (parseFloatJS (valToString (getDotValue s id))))
            (JNum.rat (JRat.ofInt 0))) ∧
    (∀ (s : Store) (c1 c2 : Char) (rest1 rest2 : List Char)
        (startRow endRow : Nat),
      sumRange s (String.mk (c1 :: rest1)) startRow (String.mk (c2 :: rest2)) endRow
        = sumRange s (String.mk [c1]) startRow (String.mk [c2]) endRow) ∧
    rangeCells "AA" 1 "AB" 2 = ["A1", "A2"] ∧
    evaluateExpression [("A1", ⟨"", JSVal.str "1"⟩), ("A2", ⟨"", JSVal.str "2"⟩),
        ("AA1", ⟨"", JSVal.str "100"⟩), ("AB1", ⟨"", JSVal.str "200"⟩),
        ("AB2", ⟨"", JSVal.str "300"⟩)] "SUM(AA1:AB2)"
      = JSVal.num (JNum.rat ⟨3, 1⟩) :=
  ⟨sumRange_eq_rangeCells,
   fun _ _ _ _ _ _ _ => rfl,
   by decide, by decide⟩

end FSCO
